import Mathlib

/-!
Verification of the directory-change detection subsystem of
`src/system_logger.c` (repository GUFFYch/kr_C_script), as a shallow
embedding in Lean.

Text is modelled as `List Char` (C strings up to their NUL terminator),
binary buffers as `Nat → Nat` byte maps read against a declared length,
and `time_t` values as `Int`.
-/

/-! ## Constants from the source (`#define`s and inotify flag values) -/

/-- inotify `IN_MODIFY` bit (0x002). -/
def IN_MODIFY : Nat := 2

/-- inotify `IN_MOVED_FROM` bit (0x040). -/
def IN_MOVED_FROM : Nat := 64

/-- inotify `IN_MOVED_TO` bit (0x080). -/
def IN_MOVED_TO : Nat := 128

/-- inotify `IN_CREATE` bit (0x100). -/
def IN_CREATE : Nat := 256

/-- inotify `IN_DELETE` bit (0x200). -/
def IN_DELETE : Nat := 512

/-- Base name of `LOG_FILE` (`/var/log/system_logger.log`), the literal the
source compares event names against. -/
def logFileName : List Char := "system_logger.log".toList

/-- The directory component of `LOG_FILE`, and the second entry of the
static `watch_dirs` table. -/
def logDirPath : List Char := "/var/log".toList

/-- The relative suffix appended by `snprintf(log_path, ..., "%s/system_logger.log", path)`. -/
def loggerLogRel : List Char := "/system_logger.log".toList

/-! ## Data model -/

/-- One entry of the static `watch_dir_t watch_dirs[]` table:
a path, an inotify watch descriptor and the `last_check` mtime baseline. -/
structure WatchDir where
  path : List Char
  wd : Int
  last_check : Int
deriving DecidableEq, Repr

/-- One decoded `struct inotify_event` record: watch descriptor, event
bitmask, cookie, declared name length and the raw name bytes (as chars). -/
structure inotify_event where
  wd : Int
  mask : Nat
  cookie : Nat
  len : Nat
  name : List Char
deriving DecidableEq, Repr

/-! ## Byte-level decoding of the inotify read buffer

`check_directory_changes` reinterprets `&buffer[i]` as a
`struct inotify_event` (a 16-byte little-endian header followed by
`len` name bytes) and advances `i` by `sizeof(struct inotify_event)
+ event->len`. -/

/-- Little-endian reassembly of four bytes into one 32-bit value. -/
def readU32 (b0 b1 b2 b3 : Nat) : Nat :=
  b0 + 256 * b1 + 65536 * b2 + 16777216 * b3

/-- Reinterpret a 32-bit bit pattern as a C `int` (two's complement). -/
def i32 (n : Nat) : Int :=
  if n < 2147483648 then (n : Int) else (n : Int) - 4294967296

/-- The `struct inotify_event` view of the buffer at byte offset `i`:
`wd` at offset 0, `mask` at 4, `cookie` at 8, `len` at 12, and `len`
name bytes from offset 16 on. -/
def eventAt (buf : Nat → Nat) (i : Nat) : inotify_event :=
  let len := readU32 (buf (i + 12)) (buf (i + 13)) (buf (i + 14)) (buf (i + 15))
  { wd := i32 (readU32 (buf i) (buf (i + 1)) (buf (i + 2)) (buf (i + 3)))
    mask := readU32 (buf (i + 4)) (buf (i + 5)) (buf (i + 6)) (buf (i + 7))
    cookie := readU32 (buf (i + 8)) (buf (i + 9)) (buf (i + 10)) (buf (i + 11))
    len := len
    name := (List.range len).map (fun k => Char.ofNat (buf (i + 16 + k))) }

/-- The decoding cursor loop of `check_directory_changes`
(`while (i < length) { ...; i += sizeof(struct inotify_event) + event->len; }`),
isolated from event processing. -/
def decodeFrom (buf : Nat → Nat) (L i : Nat) : List inotify_event :=
  if _h : i < L then
    eventAt buf i :: decodeFrom buf L (i + 16 + (eventAt buf i).len)
  else []
termination_by L - i
decreasing_by omega

/-! ## Encoding of well-formed back-to-back records

A reference encoder for the wire format that the kernel produces, used to
state what a well-formed buffer is. -/

/-- A raw record before encoding: the header fields as 32-bit bit patterns
plus the raw name bytes (`len` is always `name.length`). -/
structure RawRec where
  wd : Nat
  mask : Nat
  cookie : Nat
  name : List Nat
deriving DecidableEq, Repr

/-- Little-endian byte serialization of one 32-bit value. -/
def u32le (n : Nat) : List Nat :=
  [n % 256, n / 256 % 256, n / 65536 % 256, n / 16777216 % 256]

/-- Byte serialization of one record: 16-byte header then the name bytes. -/
def encodeRec (r : RawRec) : List Nat :=
  u32le r.wd ++ u32le r.mask ++ u32le r.cookie ++ u32le r.name.length ++ r.name

/-- Byte serialization of back-to-back records. -/
def encodeRecs : List RawRec → List Nat
  | [] => []
  | r :: rs => encodeRec r ++ encodeRecs rs

/-- The decoded view a correct decoder must recover from one raw record. -/
def decodedOf (r : RawRec) : inotify_event :=
  { wd := i32 r.wd
    mask := r.mask
    cookie := r.cookie
    len := r.name.length
    name := r.name.map Char.ofNat }

/-- Well-formedness of a raw record: each header field fits in 32 bits. -/
def wfRec (r : RawRec) : Prop :=
  r.wd < 4294967296 ∧ r.mask < 4294967296 ∧ r.cookie < 4294967296 ∧
    r.name.length < 4294967296

instance (r : RawRec) : Decidable (wfRec r) := by
  unfold wfRec; infer_instance

/-! ## Event processing (`check_directory_changes`, lines 199-221) -/

/-- The C string value of `event->name`: bytes up to the first NUL. -/
def entryName (e : inotify_event) : List Char :=
  e.name.takeWhile (fun c => c ≠ Char.ofNat 0)

/-- The `event_type` selection chain: default `"modification"`, then the
first matching bit in the order create, delete, modify, moved-from,
moved-to wins. -/
def event_type (mask : Nat) : List Char :=
  if mask &&& IN_CREATE ≠ 0 then "creation".toList
  else if mask &&& IN_DELETE ≠ 0 then "deletion".toList
  else if mask &&& IN_MODIFY ≠ 0 then "modification".toList
  else if mask &&& IN_MOVED_FROM ≠ 0 then "moved from".toList
  else if mask &&& IN_MOVED_TO ≠ 0 then "moved to".toList
  else "modification".toList

/-- The `snprintf` message for one reported event: with a name,
`"<dir>: <type> of file <name>"`, otherwise `"<dir>: <type>"`. -/
def eventMsg (d : WatchDir) (e : inotify_event) : List Char :=
  if 0 < e.len then
    d.path ++ (": ").toList ++ event_type e.mask ++ (" of file ").toList ++ entryName e
  else
    d.path ++ (": ").toList ++ event_type e.mask

/-- Processing of one decoded event: find the first watch target with a
matching descriptor (the `for` loop with `break`); suppress the event when
a name is present and equals `"system_logger.log"`; otherwise emit one
`log_message` call at `LOG_INFO` (= 6). -/
def processEvent (dirs : List WatchDir) (e : inotify_event) : Option (List Char × Nat) :=
  match List.find? (fun d => d.wd == e.wd) dirs with
  | none => none
  | some d =>
    if 0 < e.len ∧ entryName e = logFileName then none
    else some (eventMsg d e, 6)

/-- The fused decode-and-process loop of `check_directory_changes`: one
pass over the buffer that both decodes each record and processes it, with
the cursor advanced by header size + name length regardless of whether the
record produced a log call. -/
def processFrom (dirs : List WatchDir) (buf : Nat → Nat) (L i : Nat) :
    List (List Char × Nat) :=
  if _h : i < L then
    (match processEvent dirs (eventAt buf i) with
     | some c => [c]
     | none => []) ++ processFrom dirs buf L (i + 16 + (eventAt buf i).len)
  else []
termination_by L - i
decreasing_by omega

/-! ## Periodic fallback poll (`check_directory_changes_periodic`) -/

/-- The message reported by the fallback poll. -/
def changesMsg (p : List Char) : List Char :=
  ("Changes detected in directory: ").toList ++ p

/-- One iteration of the fallback loop body for a single watch target.
`statF` models `stat`: `some m` is success with `st_mtime = m`, `none` is
failure. Returns the updated target and the optional `log_message` call. -/
def periodicStep (statF : List Char → Option Int) (d : WatchDir) :
    WatchDir × Option (List Char × Nat) :=
  match statF d.path with
  | none => (d, none)
  | some m =>
    if d.path = logDirPath ∧ statF (d.path ++ loggerLogRel) = some m ∧ 0 < d.last_check then
      ({ d with last_check := m }, none)
    else
      ({ d with last_check := m },
       if 0 < d.last_check ∧ d.last_check < m then some (changesMsg d.path, 6) else none)

/-- The whole `for` loop of the fallback poll over the registry. -/
def periodicPass (statF : List Char → Option Int) (dirs : List WatchDir) :
    List WatchDir × List (List Char × Nat) :=
  (dirs.map (fun d => (periodicStep statF d).1),
   dirs.filterMap (fun d => (periodicStep statF d).2))

/-- Mutable state of the fallback poll: the `static time_t last_check`
rate-limit timestamp plus the registry. -/
structure PeriodicState where
  lastRun : Int
  dirs : List WatchDir
deriving DecidableEq, Repr

/-- The function `check_directory_changes_periodic`: return unchanged if fewer than 30
seconds have passed since the last run, else record `now` and run the
per-directory pass. -/
def check_directory_changes_periodic (statF : List Char → Option Int)
    (st : PeriodicState) (now : Int) : PeriodicState × List (List Char × Nat) :=
  if now - st.lastRun < 30 then (st, [])
  else ({ lastRun := now, dirs := (periodicPass statF st.dirs).1 },
        (periodicPass statF st.dirs).2)

/-! ## Configuration (`read_config`) -/

/-- The two config globals: `log_interval` and `use_syslog`. -/
structure Config where
  log_interval : Int
  use_syslog : Bool
deriving DecidableEq, Repr

/-- Initial values: `LOG_INTERVAL` = 5, `use_syslog` = 1. -/
def defaultConfig : Config := { log_interval := 5, use_syslog := true }

/-- Digit-accumulation loop of `atoi`. -/
def atoiDigits (acc : Int) : List Char → Int
  | [] => acc
  | c :: rest =>
    if c.isDigit then atoiDigits (acc * 10 + ((c.toNat : Int) - 48)) rest else acc

/-- C `atoi`: skip leading whitespace, optional sign, then digits. -/
def atoi (s : List Char) : Int :=
  let s1 := s.dropWhile (fun c => c = ' ' ∨ c = Char.ofNat 9 ∨ c = Char.ofNat 10 ∨
    c = Char.ofNat 11 ∨ c = Char.ofNat 12 ∨ c = Char.ofNat 13)
  match s1 with
  | '-' :: rest => - atoiDigits 0 rest
  | '+' :: rest => atoiDigits 0 rest
  | _ => atoiDigits 0 s1

/-- Processing of one (newline-stripped) config line: skip blank and `#`
lines; `LOG_INTERVAL=` sets the interval only when `0 < v ≤ 3600`;
`USE_SYSLOG=` sets the flag to `atoi(...) != 0`. -/
def processConfigLine (cfg : Config) (line : List Char) : Config :=
  if line = [] ∨ line.head? = some '#' then cfg
  else if ("LOG_INTERVAL=").toList.isPrefixOf line then
    let v := atoi (line.drop 13)
    if 0 < v ∧ v ≤ 3600 then { cfg with log_interval := v } else cfg
  else if ("USE_SYSLOG=").toList.isPrefixOf line then
    { cfg with use_syslog := atoi (line.drop 11) ≠ 0 }
  else cfg

/-- The function `read_config`: `none` models `fopen` failure (settings untouched);
otherwise every line is processed in order. -/
def read_config (file : Option (List (List Char))) (cfg : Config) : Config :=
  match file with
  | none => cfg
  | some lines => lines.foldl processConfigLine cfg

/-! ## Dual-sink log writer (`log_message`) -/

/-- Severity label chosen by `log_message` (`LOG_WARNING` = 4,
`LOG_ERR` = 3, `LOG_DEBUG` = 7, anything else prints `INFO`). -/
def levelStr (priority : Nat) : List Char :=
  if priority = 4 then "WARNING".toList
  else if priority = 3 then "ERROR".toList
  else if priority = 7 then "DEBUG".toList
  else "INFO".toList

/-- The function `log_message`: the file sink receives
`[time] [LEVEL] [user] message\n` when the file handle is open, and the
syslog sink receives `(priority, "[user] message")` when `use_syslog` is
set; each sink is guarded only by its own flag. -/
def log_message (fileOpen useSyslog : Bool) (timeStr username message : List Char)
    (priority : Nat) : Option (List Char) × Option (Nat × List Char) :=
  ((if fileOpen then
      some (("[").toList ++ timeStr ++ ("] [").toList ++ levelStr priority ++
        ("] [").toList ++ username ++ ("] ").toList ++ message ++ [Char.ofNat 10])
    else none),
   (if useSyslog then
      some (priority, ("[").toList ++ username ++ ("] ").toList ++ message)
    else none))

/-! ## Concrete example registry (the `watch_dirs` table after a
successful `init_directory_monitoring` that assigned descriptors 1-3) -/

def watchDirs0 : List WatchDir :=
  [{ path := "/etc".toList, wd := 1, last_check := 0 },
   { path := "/var/log".toList, wd := 2, last_check := 0 },
   { path := "/tmp".toList, wd := 3, last_check := 0 }]

/-! ## Theorems -/

/-- Spec-side restatement of the kind precedence order. -/
def kindPrecedence : List (Nat × List Char) :=
  [(IN_CREATE, "creation".toList), (IN_DELETE, "deletion".toList),
   (IN_MODIFY, "modification".toList), (IN_MOVED_FROM, "moved from".toList),
   (IN_MOVED_TO, "moved to".toList)]

/-- Spec-side kind selection: first bit set in precedence order wins. -/
def kindSpec (mask : Nat) : List Char :=
  match List.find? (fun p => decide (mask &&& p.1 ≠ 0)) kindPrecedence with
  | some p => p.2
  | none => "modification".toList

/-- C3: the reported kind is the first match in the fixed precedence order
created, deleted, modified, moved-from, moved-to; in particular a mask with
both the created and modified bits set decodes to "creation". -/
theorem C3_kind_precedence (mask : Nat) :
    event_type mask = kindSpec mask ∧
    (mask &&& IN_CREATE ≠ 0 ∧ mask &&& IN_MODIFY ≠ 0 →
      event_type mask = "creation".toList) := by
  constructor
  · by_cases h1 : mask &&& IN_CREATE = 0 <;>
    by_cases h2 : mask &&& IN_DELETE = 0 <;>
    by_cases h3 : mask &&& IN_MODIFY = 0 <;>
    by_cases h4 : mask &&& IN_MOVED_FROM = 0 <;>
    by_cases h5 : mask &&& IN_MOVED_TO = 0 <;>
    simp [event_type, kindSpec, kindPrecedence, List.find?, h1, h2, h3, h4, h5]
  · intro h
    simp [event_type, h.1]

/-- Witness for C3 at the concrete mask `IN_CREATE ||| IN_MODIFY` = 258. -/
theorem C3_kind_precedence_witness :
    event_type 258 = "creation".toList ∧ event_type 258 = kindSpec 258 :=
  ⟨(C3_kind_precedence 258).2 (by decide), (C3_kind_precedence 258).1⟩

/-- Helper: a `LOG_INTERVAL=` line sets the interval exactly when the
parsed value lies in (0, 3600]. -/
theorem processConfigLine_interval (cfg : Config) (s : List Char) :
    processConfigLine cfg (("LOG_INTERVAL=").toList ++ s) =
      (if 0 < atoi s ∧ atoi s ≤ 3600 then { cfg with log_interval := atoi s }
       else cfg) := by
  rw [show ("LOG_INTERVAL=").toList =
    ['L', 'O', 'G', '_', 'I', 'N', 'T', 'E', 'R', 'V', 'A', 'L', '='] from rfl]
  unfold processConfigLine
  rw [if_neg (by simp)]
  rw [if_pos (by simp [List.isPrefixOf])]
  rfl

/-- C8: absence of the config file keeps the defaults (interval 5, syslog
on); a single `LOG_INTERVAL=` line makes the interval equal the parsed
value exactly when that value is in (0, 3600]; the out-of-range values
9999 and 0 leave the whole config at its defaults; and with two interval
lines the last valid one (7) survives a following invalid one (9999). -/
theorem C8_config_clamping :
    read_config none defaultConfig = defaultConfig ∧
    (∀ s : List Char,
      (read_config (some [("LOG_INTERVAL=").toList ++ s]) defaultConfig).log_interval
        = atoi s ↔ (0 < atoi s ∧ atoi s ≤ 3600)) ∧
    read_config (some [("LOG_INTERVAL=9999").toList]) defaultConfig = defaultConfig ∧
    read_config (some [("LOG_INTERVAL=0").toList]) defaultConfig = defaultConfig ∧
    (read_config (some [("LOG_INTERVAL=7").toList, ("LOG_INTERVAL=9999").toList])
      defaultConfig).log_interval = 7 := by
  refine ⟨rfl, ?_, by decide, by decide, by decide⟩
  intro s
  show (processConfigLine defaultConfig (("LOG_INTERVAL=").toList ++ s)).log_interval
      = atoi s ↔ _
  rw [processConfigLine_interval]
  by_cases h : 0 < atoi s ∧ atoi s ≤ 3600
  · simp [h]
  · rw [if_neg h]
    simp only [h, iff_false]
    show ¬ ((5 : Int) = atoi s)
    omega

/-- C9: the two sinks of `log_message` are independent: the file line does
not depend on the syslog flag, the syslog record does not depend on the
file handle, the file line is the full `[time] [LEVEL] [user] text` format
even with syslog disabled, and the syslog record is still produced with
the file sink unavailable. -/
theorem C9_dual_sink_independence (fo us : Bool) (t u m : List Char) (p : Nat) :
    ((log_message fo false t u m p).1 = (log_message fo true t u m p).1) ∧
    ((log_message false us t u m p).2 = (log_message true us t u m p).2) ∧
    ((log_message true false t u m p).1 =
      some (("[").toList ++ t ++ ("] [").toList ++ levelStr p ++ ("] [").toList ++
        u ++ ("] ").toList ++ m ++ [Char.ofNat 10])) ∧
    ((log_message false true t u m p).2 =
      some (p, ("[").toList ++ u ++ ("] ").toList ++ m)) :=
  ⟨rfl, rfl, rfl, rfl⟩

/-! ### Fallback poll -/

/-- Example stat environment: `/var/log` and the log file inside it share
mtime 10. -/
def statVarLog : List Char → Option Int :=
  fun p => if p = logDirPath then some 10
    else if p = logDirPath ++ loggerLogRel then some 10
    else none

/-- The `/var/log` watch target with a prior baseline of 5. -/
def dVarLog : WatchDir := { path := logDirPath, wd := 2, last_check := 5 }

/-- Counterexample to C4 as stated: for the `/var/log` target the current
mtime 10 is strictly greater than the stored baseline 5 > 0, yet no record
is emitted, because the directory mtime equals the log file's mtime and
the self-noise branch fires; the baseline is still advanced to 10. -/
theorem C4_counterexample :
    statVarLog dVarLog.path = some 10 ∧
    (0 : Int) < dVarLog.last_check ∧ dVarLog.last_check < 10 ∧
    periodicStep statVarLog dVarLog = ({ dVarLog with last_check := 10 }, none) := by
  decide

/-- C4 (amended): when `stat` yields mtime `m` for a watch target, the
baseline is unconditionally updated to `m`, and a record is emitted
exactly when `m` is strictly greater than a positive stored baseline AND
the self-noise suppression does not fire (the target is not `/var/log`
with the log file's mtime equal to `m`). -/
theorem C4_poll_reporting (statF : List Char → Option Int) (d : WatchDir) (m : Int)
    (h : statF d.path = some m) :
    (periodicStep statF d).1 = { d with last_check := m } ∧
    (periodicStep statF d).2 =
      (if 0 < d.last_check ∧ d.last_check < m ∧
          ¬(d.path = logDirPath ∧ statF (d.path ++ loggerLogRel) = some m)
       then some (changesMsg d.path, 6) else none) := by
  unfold periodicStep
  rw [h]
  dsimp only
  by_cases hs : d.path = logDirPath ∧ statF (d.path ++ loggerLogRel) = some m ∧
      0 < d.last_check
  · rw [if_pos hs]
    refine ⟨rfl, ?_⟩
    rw [if_neg]
    rintro ⟨-, -, hn⟩
    exact hn ⟨hs.1, hs.2.1⟩
  · rw [if_neg hs]
    refine ⟨rfl, ?_⟩
    by_cases he : 0 < d.last_check ∧ d.last_check < m
    · rw [if_pos he, if_pos]
      exact ⟨he.1, he.2, fun hc => hs ⟨hc.1, hc.2, he.1⟩⟩
    · rw [if_neg he, if_neg]
      rintro ⟨h1, h2, -⟩
      exact he ⟨h1, h2⟩

/-- Witness for C4 (amended) at a non-`/var/log` target: `/etc` with
baseline 5 and current mtime 10 emits one record and advances to 10. -/
theorem C4_poll_reporting_witness :
    (periodicStep (fun p => if p = ("/etc").toList then some 10 else none)
        { path := ("/etc").toList, wd := 1, last_check := 5 }).1 =
      { path := ("/etc").toList, wd := 1, last_check := 10 } ∧
    (periodicStep (fun p => if p = ("/etc").toList then some 10 else none)
        { path := ("/etc").toList, wd := 1, last_check := 5 }).2 =
      (if (0 : Int) < 5 ∧ (5 : Int) < 10 ∧
          ¬(("/etc").toList = logDirPath ∧
            (fun p => if p = ("/etc").toList then some 10 else none)
              (("/etc").toList ++ loggerLogRel) = some 10)
       then some (changesMsg ("/etc").toList, 6) else none) :=
  C4_poll_reporting (fun p => if p = ("/etc").toList then some 10 else none)
    { path := ("/etc").toList, wd := 1, last_check := 5 } 10 (by decide)

/-- C5: for the `/var/log` target, when the directory's mtime equals the
log file's mtime and the stored baseline is positive, no record is emitted
and the baseline is still advanced to the current mtime. -/
theorem C5_self_noise_suppression (statF : List Char → Option Int) (d : WatchDir)
    (m : Int) (hp : d.path = logDirPath) (hd : statF d.path = some m)
    (hl : statF (d.path ++ loggerLogRel) = some m) (hb : 0 < d.last_check) :
    periodicStep statF d = ({ d with last_check := m }, none) := by
  unfold periodicStep
  rw [hd]
  dsimp only
  rw [if_pos ⟨hp, hl, hb⟩]

/-- Witness for C5: the concrete `/var/log` target with baseline 5 and
equal directory/log mtimes 10. -/
theorem C5_self_noise_suppression_witness :
    periodicStep statVarLog dVarLog = ({ dVarLog with last_check := 10 }, none) :=
  C5_self_noise_suppression statVarLog dVarLog 10 rfl (by decide) (by decide) (by decide)

/-- C6: a target observed twice with the same on-disk mtime `m` emits no
record on the second observation and its baseline is left unchanged. -/
theorem C6_idempotent_baseline (statF statG : List Char → Option Int) (d : WatchDir)
    (m : Int) (h1 : statF d.path = some m) (h2 : statG d.path = some m) :
    periodicStep statG (periodicStep statF d).1 = ((periodicStep statF d).1, none) := by
  have hfst : (periodicStep statF d).1 = { d with last_check := m } := by
    unfold periodicStep
    rw [h1]
    dsimp only
    by_cases hs : d.path = logDirPath ∧ statF (d.path ++ loggerLogRel) = some m ∧
        0 < d.last_check
    · rw [if_pos hs]
    · rw [if_neg hs]
  rw [hfst]
  unfold periodicStep
  dsimp only
  rw [h2]
  dsimp only
  by_cases hs : d.path = logDirPath ∧ statG (d.path ++ loggerLogRel) = some m ∧
      (0 : Int) < m
  · rw [if_pos hs]
  · rw [if_neg hs, if_neg (fun hc => absurd hc.2 (lt_irrefl m))]

/-- Witness for C6: `/etc` observed twice at mtime 10; the second
observation is silent and keeps the baseline at 10. -/
theorem C6_idempotent_baseline_witness :
    periodicStep (fun p => if p = ("/etc").toList then some 10 else none)
      ((periodicStep (fun p => if p = ("/etc").toList then some 10 else none)
        { path := ("/etc").toList, wd := 1, last_check := 5 }).1) =
    ((periodicStep (fun p => if p = ("/etc").toList then some 10 else none)
        { path := ("/etc").toList, wd := 1, last_check := 5 }).1, none) :=
  C6_idempotent_baseline (fun p => if p = ("/etc").toList then some 10 else none)
    (fun p => if p = ("/etc").toList then some 10 else none)
    { path := ("/etc").toList, wd := 1, last_check := 5 } 10 (by decide) (by decide)

/-- C7: the 30-second rate limit. A first invocation at `n1` at least 30
seconds after the stored last-run timestamp performs the per-directory
pass and records `n1`; a second invocation within 29 seconds is a no-op
that changes no state and emits nothing. -/
theorem C7_rate_limit (statF statG : List Char → Option Int) (st : PeriodicState)
    (n1 n2 : Int) (h1 : 30 ≤ n1 - st.lastRun) (h2 : n2 - n1 < 30) :
    check_directory_changes_periodic statF st n1 =
      ({ lastRun := n1, dirs := (periodicPass statF st.dirs).1 },
       (periodicPass statF st.dirs).2) ∧
    check_directory_changes_periodic statG
        (check_directory_changes_periodic statF st n1).1 n2 =
      ((check_directory_changes_periodic statF st n1).1, []) := by
  have hrun : check_directory_changes_periodic statF st n1 =
      ({ lastRun := n1, dirs := (periodicPass statF st.dirs).1 },
       (periodicPass statF st.dirs).2) := by
    unfold check_directory_changes_periodic
    rw [if_neg (by omega)]
  refine ⟨hrun, ?_⟩
  rw [hrun]
  unfold check_directory_changes_periodic
  rw [if_pos (by dsimp only; omega)]

/-- Witness for C7: last run at 0, calls at 100 and 129 with an empty
stat environment. -/
theorem C7_rate_limit_witness :
    check_directory_changes_periodic (fun _ => none)
        { lastRun := 0, dirs := watchDirs0 } 100 =
      ({ lastRun := 100, dirs := (periodicPass (fun _ => none) watchDirs0).1 },
       (periodicPass (fun _ => none) watchDirs0).2) ∧
    check_directory_changes_periodic (fun _ => none)
        (check_directory_changes_periodic (fun _ => none)
          { lastRun := 0, dirs := watchDirs0 } 100).1 129 =
      ((check_directory_changes_periodic (fun _ => none)
          { lastRun := 0, dirs := watchDirs0 } 100).1, []) :=
  C7_rate_limit (fun _ => none) (fun _ => none) { lastRun := 0, dirs := watchDirs0 }
    100 129 (by decide) (by decide)

/-! ### Byte-level decoding -/

theorem readU32_u32le (n : Nat) (hn : n < 4294967296) :
    readU32 (n % 256) (n / 256 % 256) (n / 65536 % 256) (n / 16777216 % 256) = n := by
  unfold readU32
  omega

theorem encodeRec_length (r : RawRec) : (encodeRec r).length = 16 + r.name.length := by
  simp [encodeRec, u32le]
  omega

theorem decodeFrom_stop (buf : Nat → Nat) (L i : Nat) (h : ¬ i < L) :
    decodeFrom buf L i = [] := by
  rw [decodeFrom]
  simp [h]

theorem decodeFrom_step (buf : Nat → Nat) (L i : Nat) (h : i < L) :
    decodeFrom buf L i =
      eventAt buf i :: decodeFrom buf L (i + 16 + (eventAt buf i).len) := by
  conv_lhs => rw [decodeFrom]
  simp [h]

/-- Round trip: a buffer that agrees, below the declared length, with the
encoding of a list of well-formed back-to-back records decodes to exactly
those records, independently of any bytes at or past the declared length. -/
theorem decodeFrom_encodeRecs :
    ∀ (rs : List RawRec), (∀ r ∈ rs, wfRec r) →
    ∀ (buf : Nat → Nat) (i : Nat),
    (∀ k, k < (encodeRecs rs).length → buf (i + k) = (encodeRecs rs).getD k 0) →
    decodeFrom buf (i + (encodeRecs rs).length) i = rs.map decodedOf := by
  intro rs
  induction rs with
  | nil =>
    intro _ buf i _
    rw [decodeFrom_stop]
    · rfl
    · simp [encodeRecs]
  | cons r rs ih =>
    intro hwf buf i hbuf
    obtain ⟨hw, hm, hc, hl⟩ := hwf r (List.mem_cons_self r rs)
    have hEnc : encodeRecs (r :: rs) = encodeRec r ++ encodeRecs rs := rfl
    have hbhead : ∀ j, j < 16 + r.name.length → buf (i + j) = (encodeRec r).getD j 0 := by
      intro j hj
      have hlt : j < (encodeRecs (r :: rs)).length := by
        rw [hEnc, List.length_append, encodeRec_length]
        omega
      rw [hbuf j hlt, hEnc, List.getD_append _ _ _ _ (by rw [encodeRec_length]; omega)]
    have b0 : buf i = r.wd % 256 := hbhead 0 (by omega)
    have b1 : buf (i + 1) = r.wd / 256 % 256 := hbhead 1 (by omega)
    have b2 : buf (i + 2) = r.wd / 65536 % 256 := hbhead 2 (by omega)
    have b3 : buf (i + 3) = r.wd / 16777216 % 256 := hbhead 3 (by omega)
    have b4 : buf (i + 4) = r.mask % 256 := hbhead 4 (by omega)
    have b5 : buf (i + 5) = r.mask / 256 % 256 := hbhead 5 (by omega)
    have b6 : buf (i + 6) = r.mask / 65536 % 256 := hbhead 6 (by omega)
    have b7 : buf (i + 7) = r.mask / 16777216 % 256 := hbhead 7 (by omega)
    have b8 : buf (i + 8) = r.cookie % 256 := hbhead 8 (by omega)
    have b9 : buf (i + 9) = r.cookie / 256 % 256 := hbhead 9 (by omega)
    have b10 : buf (i + 10) = r.cookie / 65536 % 256 := hbhead 10 (by omega)
    have b11 : buf (i + 11) = r.cookie / 16777216 % 256 := hbhead 11 (by omega)
    have b12 : buf (i + 12) = r.name.length % 256 := hbhead 12 (by omega)
    have b13 : buf (i + 13) = r.name.length / 256 % 256 := hbhead 13 (by omega)
    have b14 : buf (i + 14) = r.name.length / 65536 % 256 := hbhead 14 (by omega)
    have b15 : buf (i + 15) = r.name.length / 16777216 % 256 := hbhead 15 (by omega)
    have hname : ∀ k, k < r.name.length → buf (i + 16 + k) = r.name.getD k 0 := by
      intro k hk
      have h16k : buf (i + (16 + k)) = (encodeRec r).getD (16 + k) 0 :=
        hbhead (16 + k) (by omega)
      rw [show i + 16 + k = i + (16 + k) from by omega, h16k]
      have hsplit : encodeRec r =
          (u32le r.wd ++ u32le r.mask ++ u32le r.cookie ++ u32le r.name.length) ++
            r.name := by
        simp [encodeRec, List.append_assoc]
      have hhl : (u32le r.wd ++ u32le r.mask ++ u32le r.cookie ++
          u32le r.name.length).length = 16 := by
        simp [u32le]
      rw [hsplit, List.getD_append_right _ _ _ _ (by rw [hhl]; omega), hhl,
        show 16 + k - 16 = k from by omega]
    have e1 : readU32 (buf i) (buf (i + 1)) (buf (i + 2)) (buf (i + 3)) = r.wd := by
      rw [b0, b1, b2, b3]
      exact readU32_u32le r.wd hw
    have e2 : readU32 (buf (i + 4)) (buf (i + 5)) (buf (i + 6)) (buf (i + 7)) = r.mask := by
      rw [b4, b5, b6, b7]
      exact readU32_u32le r.mask hm
    have e3 : readU32 (buf (i + 8)) (buf (i + 9)) (buf (i + 10)) (buf (i + 11)) = r.cookie := by
      rw [b8, b9, b10, b11]
      exact readU32_u32le r.cookie hc
    have e4 : readU32 (buf (i + 12)) (buf (i + 13)) (buf (i + 14)) (buf (i + 15)) =
        r.name.length := by
      rw [b12, b13, b14, b15]
      exact readU32_u32le _ hl
    have hev : eventAt buf i = decodedOf r := by
      unfold eventAt
      rw [e4]
      dsimp only
      rw [e1, e2, e3]
      unfold decodedOf
      congr 1
      apply List.ext_getElem (by simp)
      intro j h1 h2
      simp only [List.getElem_map, List.getElem_range]
      have hj : j < r.name.length := by simpa using h1
      rw [hname j hj, List.getD_eq_getElem _ _ hj]
    have hLpos : i < i + (encodeRecs (r :: rs)).length := by
      rw [hEnc, List.length_append, encodeRec_length]
      omega
    rw [decodeFrom_step _ _ _ hLpos, hev]
    show decodedOf r :: _ = decodedOf r :: rs.map decodedOf
    congr 1
    have hL : i + (encodeRecs (r :: rs)).length =
        (i + 16 + r.name.length) + (encodeRecs rs).length := by
      rw [hEnc, List.length_append, encodeRec_length]
      omega
    rw [show (decodedOf r).len = r.name.length from rfl, hL]
    apply ih (fun r' hr' => hwf r' (List.mem_cons_of_mem r hr'))
    intro k hk
    rw [show i + 16 + r.name.length + k = i + (16 + r.name.length + k) from by omega]
    rw [hbuf (16 + r.name.length + k)
      (by rw [hEnc, List.length_append, encodeRec_length]; omega)]
    rw [hEnc, List.getD_append_right _ _ _ _ (by rw [encodeRec_length]; omega),
      encodeRec_length, show 16 + r.name.length + k - (16 + r.name.length) = k from by omega]

/-- C1: record decoding exactness. For any list of well-formed
back-to-back records, any buffer whose bytes below the declared length
`(encodeRecs rs).length` agree with their encoding (bytes at or past the
declared length are arbitrary, so the result never depends on them)
decodes to exactly `rs.length` events with all header fields and name
bytes correctly recovered, advancing 16 + name-length bytes per record. -/
theorem C1_record_decoding (rs : List RawRec) (hwf : ∀ r ∈ rs, wfRec r)
    (buf : Nat → Nat)
    (hbuf : ∀ k, k < (encodeRecs rs).length → buf k = (encodeRecs rs).getD k 0) :
    decodeFrom buf (encodeRecs rs).length 0 = rs.map decodedOf ∧
    (decodeFrom buf (encodeRecs rs).length 0).length = rs.length := by
  have h := decodeFrom_encodeRecs rs hwf buf 0
    (by intro k hk; rw [Nat.zero_add]; exact hbuf k hk)
  rw [Nat.zero_add] at h
  exact ⟨h, by rw [h]; simp⟩

/-- Two concrete records: `wd` 7, create bit, name "foo.txt" plus its NUL
(len 8), then `wd` 3, modify bit, zero-length name. -/
def exRecs : List RawRec :=
  [{ wd := 7, mask := 256, cookie := 0,
     name := [102, 111, 111, 46, 116, 120, 116, 0] },
   { wd := 3, mask := 2, cookie := 0, name := [] }]

/-- The buffer holding exactly the encoding of `exRecs`. -/
def exBuf : Nat → Nat := fun k => (encodeRecs exRecs).getD k 0

/-- Witness for C1: a two-record buffer (one non-empty name, one
zero-length name) decodes to exactly those two events. -/
theorem C1_record_decoding_witness :
    decodeFrom exBuf (encodeRecs exRecs).length 0 = exRecs.map decodedOf ∧
    (decodeFrom exBuf (encodeRecs exRecs).length 0).length = exRecs.length :=
  C1_record_decoding exRecs (by decide) exBuf (fun _ _ => rfl)

/-! ### Event processing -/

theorem processFrom_stop (dirs : List WatchDir) (buf : Nat → Nat) (L i : Nat)
    (h : ¬ i < L) : processFrom dirs buf L i = [] := by
  rw [processFrom]
  simp [h]

theorem processFrom_step (dirs : List WatchDir) (buf : Nat → Nat) (L i : Nat)
    (h : i < L) :
    processFrom dirs buf L i =
      (match processEvent dirs (eventAt buf i) with
       | some c => [c]
       | none => []) ++ processFrom dirs buf L (i + 16 + (eventAt buf i).len) := by
  conv_lhs => rw [processFrom]
  simp [h]

/-- The fused decode-and-process loop equals per-record processing of the
decoded list: the cursor advance is independent of whether a record was
matched, suppressed, or reported. -/
theorem processFrom_eq_filterMap (dirs : List WatchDir) (buf : Nat → Nat) (L : Nat) :
    ∀ i, processFrom dirs buf L i = (decodeFrom buf L i).filterMap (processEvent dirs) := by
  suffices h : ∀ n i, L - i ≤ n →
      processFrom dirs buf L i = (decodeFrom buf L i).filterMap (processEvent dirs) from
    fun i => h (L - i) i le_rfl
  intro n
  induction n with
  | zero =>
    intro i hi
    have hnot : ¬ i < L := by omega
    rw [processFrom_stop _ _ _ _ hnot, decodeFrom_stop _ _ _ hnot]
    rfl
  | succ n ih =>
    intro i hi
    by_cases h : i < L
    · rw [processFrom_step _ _ _ _ h, decodeFrom_step _ _ _ h, List.filterMap_cons,
        ih (i + 16 + (eventAt buf i).len) (by omega)]
      cases hpe : processEvent dirs (eventAt buf i) <;> simp
    · rw [processFrom_stop _ _ _ _ h, decodeFrom_stop _ _ _ h]
      rfl

/-- C10: an event whose descriptor matches no registered watch target is
silently discarded (no log call), while the fused loop still processes all
records of the buffer record by record, so later records are unaffected. -/
theorem C10_unmatched_event (dirs : List WatchDir) (e : inotify_event)
    (h : ∀ d ∈ dirs, d.wd ≠ e.wd) :
    processEvent dirs e = none ∧
    ∀ (buf : Nat → Nat) (L i : Nat),
      processFrom dirs buf L i = (decodeFrom buf L i).filterMap (processEvent dirs) := by
  refine ⟨?_, fun buf L i => processFrom_eq_filterMap dirs buf L i⟩
  unfold processEvent
  rw [List.find?_eq_none.mpr (fun d hd => by simpa using h d hd)]

/-- An event carrying descriptor 99, matching no registry entry. -/
def evUnmatched : inotify_event :=
  { wd := 99, mask := 256, cookie := 0, len := 0, name := [] }

/-- Witness for C10 at descriptor 99 against the example registry, with
the fused-loop equality instantiated on the concrete two-record buffer. -/
theorem C10_unmatched_event_witness :
    processEvent watchDirs0 evUnmatched = none ∧
    processFrom watchDirs0 exBuf (encodeRecs exRecs).length 0 =
      (decodeFrom exBuf (encodeRecs exRecs).length 0).filterMap
        (processEvent watchDirs0) :=
  ⟨(C10_unmatched_event watchDirs0 evUnmatched (by decide)).1,
   (C10_unmatched_event watchDirs0 evUnmatched (by decide)).2 exBuf
     (encodeRecs exRecs).length 0⟩

/-- An event for the `/tmp` watch (descriptor 3) naming the daemon's log
file: len 18, name "system_logger.log" plus its NUL. -/
def evTmpLog : inotify_event :=
  { wd := 3, mask := 256, cookie := 0, len := 18,
    name := logFileName ++ [Char.ofNat 0] }

/-- Counterexample to C2 as stated: an event in `/tmp` — not the daemon's
log directory — whose entry name is "system_logger.log" is nevertheless
suppressed, because the source compares only the name, never the
directory. -/
theorem C2_counterexample :
    List.find? (fun d => d.wd == evTmpLog.wd) watchDirs0 =
      some { path := ("/tmp").toList, wd := 3, last_check := 0 } ∧
    ("/tmp").toList ≠ logDirPath ∧
    0 < evTmpLog.len ∧ entryName evTmpLog = logFileName ∧
    processEvent watchDirs0 evTmpLog = none := by
  decide

/-- C2 (amended): an event that maps to a registered watch target is
suppressed exactly when a name is present and equals the log file's base
name "system_logger.log" — in any watched directory, not only the log
directory; every other such event produces exactly one info-severity
(`LOG_INFO` = 6) record naming the directory, the mapped kind, and the
entry name when present. -/
theorem C2_event_filtering (dirs : List WatchDir) (e : inotify_event) (d : WatchDir)
    (hfind : List.find? (fun x => x.wd == e.wd) dirs = some d) :
    (processEvent dirs e = none ↔ 0 < e.len ∧ entryName e = logFileName) ∧
    (¬(0 < e.len ∧ entryName e = logFileName) →
      processEvent dirs e = some (eventMsg d e, 6)) := by
  unfold processEvent
  rw [hfind]
  dsimp only
  by_cases hsup : 0 < e.len ∧ entryName e = logFileName
  · rw [if_pos hsup]
    exact ⟨⟨fun _ => hsup, fun _ => rfl⟩, fun hc => absurd hsup hc⟩
  · rw [if_neg hsup]
    exact ⟨⟨fun hno => (Option.some_ne_none _ hno).elim, fun hs => absurd hs hsup⟩,
      fun _ => rfl⟩

/-- An ordinary event in `/etc`: modify bit, name "a.txt" plus NUL. -/
def evEtcA : inotify_event :=
  { wd := 1, mask := 2, cookie := 0, len := 6,
    name := ("a.txt").toList ++ [Char.ofNat 0] }

/-- Witness for C2 (amended): the `/etc` event with name "a.txt" produces
exactly one info record. -/
theorem C2_event_filtering_witness :
    processEvent watchDirs0 evEtcA =
      some (eventMsg { path := ("/etc").toList, wd := 1, last_check := 0 } evEtcA, 6) :=
  (C2_event_filtering watchDirs0 evEtcA
    { path := ("/etc").toList, wd := 1, last_check := 0 } (by decide)).2 (by decide)
